import Mathlib

/-!
Verification of the lawn-ai receipt pipeline.

Shallow embedding of `src/ingestion/parser.py` (parse_receipt) and
`src/analysis/forecasting.py` (forecast_next_year, categorize_product,
generate_historical_table), plus the call pattern of `src/main.py`.

Modelling conventions:
* Python strings are modelled as `List Char` (ASCII inputs; the Python
  regex classes `\s` / `\d` are modelled over their ASCII members).
* Python floats are modelled as exact rationals (the type `Q` below);
  `round(x, n)` is modelled as decimal round-half-to-even on the exact
  rational value.
* Fallible Python code (statements that can raise) is modelled with
  `Except String`; the string carries the exception class of the
  corresponding Python error.
* Python `dict`s are modelled as insertion-ordered association lists.
-/

namespace LawnAI

/-- Equality on `Except` is decidable componentwise (needed to `decide`
concrete runs of the embedded functions). -/
instance {ε α : Type} [DecidableEq ε] [DecidableEq α] : DecidableEq (Except ε α) :=
  fun x y =>
    match x, y with
    | .error a, .error b => decidable_of_iff (a = b) (by simp)
    | .ok a, .ok b => decidable_of_iff (a = b) (by simp)
    | .error _, .ok _ => isFalse (by simp)
    | .ok _, .error _ => isFalse (by simp)

/-- The ASCII members of the Python regex class `\s` (also the characters
stripped by `str.strip`). -/
def pyIsSpace (c : Char) : Bool :=
  c = ' ' || c = '\t' || c = '\n' || c = '\x0d' || c = '\x0b' || c = '\x0c'

/-- Case-insensitive literal match of `pat` at the head of `s`
(Python `re` literal matching under `re.IGNORECASE`). -/
def lcMatchAt : List Char → List Char → Bool
  | [], _ => true
  | _ :: _, [] => false
  | p :: ps, c :: cs => (p.toLower == c.toLower) && lcMatchAt ps cs

/-- Case-sensitive literal match of `pat` at the head of `s`. -/
def exMatchAt : List Char → List Char → Bool
  | [], _ => true
  | _ :: _, [] => false
  | p :: ps, c :: cs => (p == c) && exMatchAt ps cs

/-- Index of the first case-insensitive occurrence of `pat` in `s`
(the scan of `re.search` for a literal under `re.IGNORECASE`). -/
def findCI (pat : List Char) : List Char → Option Nat
  | [] => if lcMatchAt pat [] then some 0 else none
  | s@(_ :: t) => if lcMatchAt pat s then some 0 else (findCI pat t).map (· + 1)

/-- Index of the last case-sensitive occurrence of `pat` in `s`
(Python `str.rfind`). -/
def rfindEx (pat : List Char) : List Char → Option Nat
  | [] => if exMatchAt pat [] then some 0 else none
  | s@(_ :: t) =>
    match rfindEx pat t with
    | some i => some (i + 1)
    | none => if exMatchAt pat s then some 0 else none

/-- Length of the maximal leading whitespace run (what a greedy `\s*`
consumes). -/
def wsRun : List Char → Nat
  | [] => 0
  | c :: t => if pyIsSpace c then wsRun t + 1 else 0

/-- Length of the maximal leading run of `[\d\.]` characters (what a greedy
`[\d\.]+` consumes). -/
def numRun : List Char → Nat
  | [] => 0
  | c :: t => if c.isDigit || c = '.' then numRun t + 1 else 0

/-- Length of the maximal leading digit run. -/
def digitRun : List Char → Nat
  | [] => 0
  | c :: t => if c.isDigit then digitRun t + 1 else 0

/-- Python `str.strip()`. -/
def pyStrip (l : List Char) : List Char :=
  ((l.dropWhile pyIsSpace).reverse.dropWhile pyIsSpace).reverse

/-- Python's lexicographic string comparison `a < b` (by code point),
as a computable Boolean on char lists. -/
def pyStrLt : List Char → List Char → Bool
  | [], [] => false
  | [], _ :: _ => true
  | _ :: _, [] => false
  | a :: as, b :: bs => decide (a < b) || (a == b && pyStrLt as bs)

/-- Python's `a <= b` on strings (`¬ b < a`). -/
def pyStrLe (a b : List Char) : Bool := !(pyStrLt b a)

/-- Python slicing `s[a:b]` for `0 ≤ a, b` (empty when `b ≤ a`). -/
def slice (l : List Char) (a b : Nat) : List Char :=
  (l.drop a).take (b - a)

/-- Value of a digit string (Python `int` on a `\d+` group). -/
def digitsToNat (l : List Char) : Nat :=
  l.foldl (fun acc c => acc * 10 + (c.toNat - '0'.toNat)) 0

/-- Python `str.upper()` (ASCII). -/
def pyUpper (l : List Char) : List Char := l.map Char.toUpper

/-- Python `str.lower()` (ASCII). -/
def pyLower (l : List Char) : List Char := l.map Char.toLower

/-- Zero-padded decimal rendering (`%04d` / `%02d`). -/
def padNat (w : Nat) (n : Nat) : String :=
  let s := toString n
  String.mk (List.replicate (w - s.length) '0') ++ s

/-- Python `str.replace(pat, repl)`: non-overlapping, left-to-right.
`fuel` bounds the recursion; callers pass `s.length + 1`. -/
def replaceAllAux (pat repl : List Char) : Nat → List Char → List Char
  | 0, s => s
  | _ + 1, [] => []
  | fuel + 1, s@(c :: t) =>
    if pat ≠ [] && exMatchAt pat s then
      repl ++ replaceAllAux pat repl fuel (s.drop pat.length)
    else
      c :: replaceAllAux pat repl fuel t

def replaceAll (pat repl s : List Char) : List Char :=
  replaceAllAux pat repl (s.length + 1) s

/-- Exact rationals in lowest terms with positive denominator, used to
model Python floats (every numeric value in the claims is exactly
representable). Unlike Mathlib's `ℚ`, every operation below is plain
structural arithmetic, so concrete runs of the embedded code reduce inside
`decide`. -/
structure Q where
  num : ℤ
  den : ℕ
deriving DecidableEq, Repr

/-- Normalize a fraction to lowest terms (callers never pass `d = 0`). -/
def Q.norm (n : ℤ) (d : ℕ) : Q :=
  if d = 0 then ⟨0, 1⟩
  else
    let g := Nat.gcd n.natAbs d
    ⟨n / (g : ℤ), d / g⟩

instance (n : ℕ) : OfNat Q n := ⟨⟨(n : ℤ), 1⟩⟩

def Q.add (a b : Q) : Q := Q.norm (a.num * b.den + b.num * a.den) (a.den * b.den)

instance : Add Q := ⟨Q.add⟩

instance : Zero Q := ⟨⟨0, 1⟩⟩

def Q.mul (a b : Q) : Q := Q.norm (a.num * b.num) (a.den * b.den)

/-- Division (always by a positive value in this code base, but defined for
any non-zero divisor). -/
def Q.div (a b : Q) : Q :=
  Q.norm (a.num * b.den * b.num.sign) (a.den * b.num.natAbs)

/-- Round-half-to-even to an integer (the rounding mode of Python
`round`): floor quotient, then compare twice the remainder with the
denominator. -/
def rhe (q : Q) : ℤ :=
  let f := Int.fdiv q.num q.den
  let rem := q.num - f * q.den
  if 2 * rem < (q.den : ℤ) then f
  else if (q.den : ℤ) < 2 * rem then f + 1
  else if f % 2 = 0 then f else f + 1

/-- Python `round(x, n)` modelled on exact rationals. -/
def pyRound (n : Nat) (q : Q) : Q :=
  Q.norm (rhe (q.mul ⟨(10 ^ n : ℤ), 1⟩)) (10 ^ n)

/-! ## Field extractor (`src/ingestion/parser.py`) -/

/-- The boundary literals of the lookahead
`(?=RATE:|PRODUCTS:|METHOD:|WHAT I|APPLIED AMT:|$)` in the targets regex. -/
def boundaryLits : List (List Char) :=
  ["RATE:", "PRODUCTS:", "METHOD:", "WHAT I", "APPLIED AMT:"].map String.toList

/-- Does some boundary literal match (case-insensitively) at the head of `s`? -/
def boundAtHead (s : List Char) : Bool :=
  boundaryLits.any (fun lit => lcMatchAt lit s)

/-- Index of the first position of `s` at which a boundary literal starts
(`s.length` when there is none). -/
def firstBound : List Char → Nat
  | [] => 0
  | s@(_ :: t) => if boundAtHead s then 0 else firstBound t + 1

/-- Index of the first position of `s` at which the targets lookahead
succeeds: a boundary literal, the end of the string, or the position just
before a string-final newline (the non-MULTILINE `$`). This is where the
lazy group `(.*?)` stops. -/
def firstLook : List Char → Nat
  | [] => 0
  | s@(_ :: t) => if boundAtHead s || s = ['\n'] then 0 else firstLook t + 1

/-- The `targets` extraction of `parse_receipt`: on the text following the
current "APPLIED AMT:" match, `re.search` for
`TARGETS:\s*(.*?)(?=RATE:|PRODUCTS:|METHOD:|WHAT I|APPLIED AMT:|$)`
(IGNORECASE, DOTALL), then `.strip()`, first line, first 100 characters;
empty when the label is absent or the stripped group is empty. The greedy
`\s*` consumes the maximal whitespace run after the label; the lazy group
then stops at the first lookahead position. -/
def codeTargets (after : List Char) : String :=
  match findCI "TARGETS:".toList after with
  | none => ""
  | some p =>
    let rest := after.drop (p + 8)
    let body := rest.drop (wsRun rest)
    let grp := body.take (firstLook body)
    let tt := pyStrip grp
    if tt = [] then "" else String.mk ((tt.splitOn '\n').headD [] |>.take 100)

/-- Modelled from the spec wording of the amended claim C6: the targets
string comes from the text following the first `TARGETS:` label occurring
anywhere after the current "APPLIED AMT:" occurrence; the window runs up to
(not including) the next boundary label or the end of the document; the
window is trimmed of surrounding whitespace and only its first line,
truncated to 100 characters, is kept; the result is empty when no
`TARGETS:` label follows. -/
def specTargetsLabelWindow (after : List Char) : String :=
  match findCI "TARGETS:".toList after with
  | none => ""
  | some p =>
    let rest := after.drop (p + 8)
    let window := rest.take (firstBound rest)
    let tt := pyStrip window
    if tt = [] then "" else String.mk ((tt.splitOn '\n').headD [] |>.take 100)

/-- Modelled from the wording of claim C6 as stated: the first line,
truncated to 100 characters, of the (trimmed) text immediately following
the "APPLIED AMT:" occurrence, scanning forward up to (not including) the
next occurrence of any boundary label or end of document. -/
def claimTargetsAdjacentWindow (after : List Char) : String :=
  let window := after.take (firstBound after)
  let tt := pyStrip window
  if tt = [] then "" else String.mk ((tt.splitOn '\n').headD [] |>.take 100)

/-- One match of the product-amount regex
`APPLIED AMT:\s*\n?\s*([\d\.]+)\s+(FLOZ|OZ|GAL|LB)(?:\s|/)` (IGNORECASE):
absolute start and end offsets, the text of group 1 (the amount token) and
of group 2 (the unit as written). -/
structure AppliedMatch where
  start : Nat
  stop : Nat
  amtTok : List Char
  unitRaw : List Char
deriving DecidableEq, Repr

/-- Try one unit alternative `u` at the head of `s`, followed by the
`(?:\s|/)` character; returns the consumed length and the unit text. -/
def tryUnit (u : String) (s : List Char) : Option (Nat × List Char) :=
  if lcMatchAt u.toList s then
    match s.drop u.length with
    | c :: _ =>
      if pyIsSpace c || c = '/' then some (u.length + 1, s.take u.length) else none
    | [] => none
  else none

/-- The alternation `(FLOZ|OZ|GAL|LB)(?:\s|/)`, alternatives tried in
pattern order. -/
def unitAlt (s : List Char) : Option (Nat × List Char) :=
  (tryUnit "FLOZ" s).orElse fun _ =>
  (tryUnit "OZ" s).orElse fun _ =>
  (tryUnit "GAL" s).orElse fun _ =>
  tryUnit "LB" s

/-- Try the product-amount regex at the head of suffix `s`; returns the
total match length, group 1 and group 2. The quantifier run `\s*\n?\s*`
consumes exactly the maximal whitespace run (group 1 must start with a
non-whitespace character), `[\d\.]+` and `\s+` consume maximal runs. -/
def tryAppliedAt (s : List Char) : Option (Nat × List Char × List Char) :=
  if lcMatchAt "APPLIED AMT:".toList s then
    let r1 := s.drop 12
    let w := wsRun r1
    let r2 := r1.drop w
    let d := numRun r2
    if d = 0 then none else
    let tok := r2.take d
    let r3 := r2.drop d
    let sp := wsRun r3
    if sp = 0 then none else
    match unitAlt (r3.drop sp) with
    | some (ulen, uraw) => some (12 + w + d + sp + ulen, tok, uraw)
    | none => none
  else none

/-- `re.finditer` for the product-amount regex: leftmost matches, scanning
resumes at the end of each match. `fuel` bounds the recursion; callers pass
`s.length + 1`, which suffices since every step consumes at least one
character. -/
def findAppliedAux : Nat → List Char → Nat → List AppliedMatch
  | 0, _, _ => []
  | _ + 1, [], _ => []
  | fuel + 1, s@(_ :: t), base =>
    match tryAppliedAt s with
    | some (len, tok, uraw) =>
      { start := base, stop := base + len, amtTok := tok, unitRaw := uraw } ::
        findAppliedAux fuel (s.drop len) (base + len)
    | none => findAppliedAux fuel t (base + 1)

/-- All matches of the product-amount regex in `t`, with absolute offsets. -/
def appliedMatches (t : List Char) : List AppliedMatch :=
  findAppliedAux (t.length + 1) t 0

/-- Can Python `float` parse this `[\d\.]+` token? It must contain at least
one digit and at most one dot (`float("1.2.3")` and `float(".")` raise
`ValueError`). -/
def floatOk (tok : List Char) : Bool :=
  tok.any Char.isDigit && tok.count '.' ≤ 1

/-- The exact rational value of a valid `[\d\.]+` float token. -/
def ratOfTok (tok : List Char) : Q :=
  let ip := tok.takeWhile (· ≠ '.')
  let fp := (tok.dropWhile (· ≠ '.')).drop 1
  Q.add ⟨(digitsToNat ip : ℤ), 1⟩ (Q.norm (digitsToNat fp : ℤ) (10 ^ fp.length))

/-- Does the "notes" end pattern `\n\s*PRODUCTS APPLIED` match at position
`q` of `t` (for some greedy/backtracked amount of `\s*`)? -/
def notesEndAt (t : List Char) (q : Nat) : Bool :=
  (t.drop q).head? = some '\n' &&
    (let r := t.drop (q + 1)
     (List.range (wsRun r + 1)).any fun b => lcMatchAt "PRODUCTS APPLIED".toList (r.drop b))

/-- `re.search(r"WHAT I DID AND WHAT TO EXPECT\s*(.*?)\n\s*PRODUCTS APPLIED",
text, DOTALL | IGNORECASE)`, returning group 1. The match starts at the
first occurrence of the opening literal (if the tail fails there, it fails
at every later occurrence too, since the tail condition is an existence
over a smaller suffix). The greedy `\s*` keeps the largest whitespace
amount `a` for which the lazy group can still reach a `\n\s*PRODUCTS
APPLIED`; the lazy group then ends at the earliest such newline. -/
def extractNotes (t : List Char) : Option (List Char) :=
  match findCI "WHAT I DID AND WHAT TO EXPECT".toList t with
  | none => none
  | some p =>
    let j := p + 29
    let qs := (List.range t.length).filter fun q => j ≤ q && notesEndAt t q
    match qs.getLast? with
    | none => none
    | some qlast =>
      let a := min (wsRun (t.drop j)) (qlast - j)
      let qstar := (qs.filter fun q => j + a ≤ q).headD qlast
      some (slice t (j + a) qstar)

/-- `re.search(r"(\d{3,5})\s*sqft", text, IGNORECASE)`, returning the value
of group 1. At each start position the greedy `\d{3,5}` tries 5, then 4,
then 3 digits; each is followed by some amount of whitespace and the
literal. -/
def extractSqft (t : List Char) : Option Nat :=
  match t with
  | [] => none
  | _ :: tl =>
    match [5, 4, 3].findSome? (fun len =>
      if (t.take len).length = len && (t.take len).all Char.isDigit &&
          (List.range (wsRun (t.drop len) + 1)).any
            (fun b => lcMatchAt "sqft".toList (t.drop (len + b)))
      then some (digitsToNat (t.take len)) else none) with
    | some v => some v
    | none => extractSqft tl

/-- `re.search(label + r"\s*(.*?)\n", text, IGNORECASE)`, returning
group 1 — used for `METHOD:` and `AREAS:`. The match anchors at the first
occurrence of the label; it exists iff some `\n` follows (if not, no later
occurrence of the label can succeed either). The greedy `\s*` keeps the
largest amount that still leaves a `\n` ahead; the group (which cannot
contain `\n`) ends at the first newline after it. -/
def extractLabelLine (label : List Char) (t : List Char) : Option (List Char) :=
  match findCI label t with
  | none => none
  | some p =>
    let rest := t.drop (p + label.length)
    match rfindEx ['\n'] rest with
    | none => none
    | some lastNL =>
      let ws := min (wsRun rest) lastNL
      let body := rest.drop ws
      some (body.take (body.findIdx (· = '\n')))

/-- Leap-year rule of the proleptic Gregorian calendar (Python `datetime`). -/
def isLeap (y : Nat) : Bool :=
  (y % 4 = 0 && y % 100 ≠ 0) || y % 400 = 0

/-- Days in a month (Python `datetime` validation). -/
def daysInMonth (y m : Nat) : Nat :=
  if m = 2 then (if isLeap y then 29 else 28)
  else if m = 4 || m = 6 || m = 9 || m = 11 then 30
  else 31

/-- Is `(y, m, d)` a valid `datetime.date`? (`MINYEAR = 1`.) -/
def validYMD (y m d : Nat) : Bool :=
  1 ≤ y && y ≤ 9999 && 1 ≤ m && m ≤ 12 && 1 ≤ d && d ≤ daysInMonth y m

/-- Try the date regex `(\d{1,2}/\d{1,2}/\d{4})` at the head of `s`:
greedy one-or-two digit groups, then exactly four digits. Returns the digit
groups for month, day and year. -/
def tryDateAt (s : List Char) : Option (List Char × List Char × List Char) :=
  let d2 := fun (l : List Char) =>
    if (l.take 2).length = 2 && (l.take 2).all Char.isDigit && (l.drop 2).head? = some '/'
    then some (l.take 2, l.drop 3)
    else if (l.take 1).length = 1 && (l.take 1).all Char.isDigit && (l.drop 1).head? = some '/'
    then some (l.take 1, l.drop 2)
    else none
  match d2 s with
  | none => none
  | some (mTok, r1) =>
    match d2 r1 with
    | none => none
    | some (dTok, r2) =>
      if (r2.take 4).length = 4 && (r2.take 4).all Char.isDigit
      then some (mTok, dTok, r2.take 4) else none

/-- First match of the date regex in `t` (the scan of `re.search`). -/
def findDateTok : List Char → Option (List Char × List Char × List Char)
  | [] => none
  | s@(_ :: tl) =>
    match tryDateAt s with
    | some r => some r
    | none => findDateTok tl

/-- The date extraction of `parse_receipt`: first `M/D/YYYY`-shaped token,
parsed by `datetime.strptime(..., "%m/%d/%Y")` and rendered with
`.date().isoformat()`; `None` (here `none`) when the token is absent or
fails calendar validation (the `except ValueError` branch). -/
def extractDate (t : List Char) : Option String :=
  match findDateTok t with
  | none => none
  | some (mTok, dTok, yTok) =>
    let m := digitsToNat mTok
    let d := digitsToNat dTok
    let y := digitsToNat yTok
    if validYMD y m d then
      some (padNat 4 y ++ "-" ++ padNat 2 m ++ "-" ++ padNat 2 d)
    else none

/-- One entry of the `products` list built by `parse_receipt`. -/
structure Product where
  name : String
  rate : Q
  applied_amt : Q
  unit : String
  targets : String
deriving DecidableEq, Repr

/-- The record produced by `parse_receipt` (the `parsed` dict). The later
`embedding` attachment done in `main.py` is irrelevant to the claims and is
not modelled as a field. -/
structure Record where
  filename : String
  notes : String
  products : List Product
  volume : Q
  property_sqft : Nat
  method : String
  areas : String
  date : Option String
deriving DecidableEq, Repr

/-- The per-match product construction of `parse_receipt` (lines 75–127),
applied after the `float` conversion succeeded: unit normalization
(`upper()`, `FLOZ → OZ`), the `rfind("RATE:")` guard over the text before
the match (skip, i.e. `none`, when absent), the product name as the last
non-blank line between the previous match end (`searchStart`) and the
`RATE:` position (skip when there is none), and the targets search on the
text after the match. -/
def prodOfMatch (t : List Char) (searchStart : Nat) (m : AppliedMatch) : Option Product :=
  let unit0 := String.mk (pyUpper m.unitRaw)
  let unit := if unit0 = "FLOZ" then "OZ" else unit0
  match rfindEx "RATE:".toList (t.take m.start) with
  | none => none
  | some ratePos =>
    let productText := pyStrip (slice t searchStart ratePos)
    let lines := ((productText.splitOn '\n').map pyStrip).filter (· ≠ [])
    match lines.getLast? with
    | none => none
    | some nm =>
      some { name := String.mk nm, rate := 0, applied_amt := ratOfTok m.amtTok,
             unit := unit, targets := codeTargets (t.drop m.stop) }

/-- The per-match product loop of `parse_receipt` (lines 73–130). For each
match, in order: `float(group(1))` — which raises `ValueError` on an
invalid token, aborting the whole parse — and then the product
construction of `prodOfMatch` (a skipped match still advances
`search_start` to its end). Returns the products in order together with
the accumulated `total_volume`. -/
def buildProducts (t : List Char) : List AppliedMatch → Nat → Except String (List Product × Q)
  | [], _ => .ok ([], 0)
  | m :: rest, searchStart =>
    if floatOk m.amtTok then
      match prodOfMatch t searchStart m, buildProducts t rest m.stop with
      | _, .error e => .error e
      | none, .ok pv => .ok pv
      | some p, .ok (ps, v) => .ok (p :: ps, v + p.applied_amt)
    else .error "ValueError: could not convert string to float"

/-- `parse_receipt` (`src/ingestion/parser.py`). Every field extraction is
an independent best-effort scan; a `ValueError` escaping from `float` on a
product-amount token is the only way the function can raise. -/
def parse_receipt (filename : String) (text : String) : Except String Record :=
  let t := text.toList
  match buildProducts t (appliedMatches t) 0 with
  | .error e => .error e
  | .ok (products, totalVolume) =>
    .ok { filename := filename
          notes := match extractNotes t with
                   | some g => String.mk (pyStrip g)
                   | none => ""
          products := products
          volume := totalVolume
          property_sqft := (extractSqft t).getD 0
          method := match extractLabelLine "METHOD:".toList t with
                    | some g => String.mk (pyStrip g)
                    | none => ""
          areas := match extractLabelLine "AREAS:".toList t with
                   | some g => String.mk (pyStrip g)
                   | none => ""
          date := extractDate t }

/-! ## Monthly aggregation / forecasting (`src/analysis/forecasting.py`) -/

/-- The `month_names` list of `forecast_next_year` (also the values of
`strftime("%B")`). -/
def monthNames : List String :=
  ["January", "February", "March", "April", "May", "June",
   "July", "August", "September", "October", "November", "December"]

/-- `datetime.fromisoformat` on the date strings this system produces
(`date.isoformat()` output, i.e. `YYYY-MM-DD`): parse and calendar-validate,
`none` when the string is not of that shape (in Python a `ValueError`). -/
def isoParse (s : String) : Option (Nat × Nat × Nat) :=
  match s.toList with
  | [y1, y2, y3, y4, '-', m1, m2, '-', d1, d2] =>
    if [y1, y2, y3, y4, m1, m2, d1, d2].all Char.isDigit then
      let y := digitsToNat [y1, y2, y3, y4]
      let m := digitsToNat [m1, m2]
      let d := digitsToNat [d1, d2]
      if validYMD y m d then some (y, m, d) else none
    else none
  | _ => none

/-- `strftime("%B")`: calendar month name. -/
def monthName (m : Nat) : String := monthNames.getD (m - 1) ""

/-- `strftime("%Y-%m")`. -/
def formatYM (y m : Nat) : String := padNat 4 y ++ "-" ++ padNat 2 m

/-- The sort key `r.get("date", "")` of `forecast_next_year` line 22. The
`"date"` key is always present in a parsed record, so the default only
shows up for the `None` value in the success cases modelled here (lists of
length ≤ 1). -/
def recKey (r : Record) : String := r.date.getD ""

/-- Descending-by-key ordering used to model
`records.sort(key=..., reverse=True)`: `a` may stay before `b` iff
`key b ≤ key a`. Insertion sort with this relation is exactly the stable
descending sort Python performs (when no comparison raises). -/
def recDescLE (a b : Record) : Prop :=
  pyStrLe (recKey b).toList (recKey a).toList = true

instance : DecidableRel recDescLE :=
  fun _ _ => inferInstanceAs (Decidable (_ = true))

/-- The stable descending sort of `records.sort(key=lambda r:
r.get("date", ""), reverse=True)`, in the cases where it does not raise. -/
def pySortDesc (l : List Record) : List Record := List.insertionSort recDescLE l

/-- Does `records.sort(key=lambda r: r.get("date", ""), reverse=True)`
raise `TypeError`? The `"date"` key is present with value `None` for an
undated record, so the `.get` default never applies and any comparison
touching a `None` key raises; timsort compares every element of a list of
length ≥ 2 at least once. -/
def pySortRaises (l : List Record) : Bool :=
  2 ≤ l.length && l.any (fun r => r.date.isNone)

/-- Per-product accumulator inside a month bucket of `monthly_data`. -/
structure PAgg where
  volumes : List Q
  unit : String
  targets : String
deriving DecidableEq, Repr

/-- One month bucket of `monthly_data`. -/
structure MonthAgg where
  products : List (String × PAgg)
  notes : List String
deriving DecidableEq, Repr

/-- In-place update of the (first) entry with key `k` of an association
list (a Python `dict[k]` mutation; keys are unique by construction). -/
def updAL {ν : Type} (k : String) (f : ν → ν) : List (String × ν) → List (String × ν)
  | [] => []
  | (k', v) :: t => if k' = k then (k', f v) :: t else (k', v) :: updAL k f t

/-- One iteration of the grouping loop of `forecast_next_year`
(lines 24–53). Records with a falsy date (`None` or `""`) are skipped; a
malformed date string raises in `datetime.fromisoformat`. Notes are
appended when truthy; each product gets its bucket created on first sight
(recording unit and targets) and its `applied_amt` appended. -/
def groupStep (hist : List (String × MonthAgg)) (r : Record) :
    Except String (List (String × MonthAgg)) :=
  match r.date with
  | none => .ok hist
  | some d =>
    if d = "" then .ok hist else
    match isoParse d with
    | none => .error "ValueError: invalid isoformat string"
    | some (_, m, _) =>
      let key := monthName m
      let hist := if (hist.lookup key).isSome then hist
                  else hist ++ [(key, ⟨[], []⟩)]
      let hist := if r.notes ≠ ""
                  then updAL key (fun agg => { agg with notes := agg.notes ++ [r.notes] }) hist
                  else hist
      let hist := if r.products ≠ [] then
          r.products.foldl (fun h p =>
            updAL key (fun agg =>
              let ps := if (agg.products.lookup p.name).isSome then agg.products
                        else agg.products ++ [(p.name, ⟨[], p.unit, p.targets⟩)]
              let ps := updAL p.name
                (fun pa => { pa with volumes := pa.volumes ++ [p.applied_amt] }) ps
              { agg with products := ps }) h) hist
        else hist
      .ok hist

/-- The `monthly_data` dict of `forecast_next_year`, built from the sorted
records. -/
def groupMonthly (l : List Record) : Except String (List (String × MonthAgg)) :=
  l.foldlM groupStep []

/-- One forecast product value `{volume, unit, targets}`. -/
structure FProd where
  volume : Q
  unit : String
  targets : String
deriving DecidableEq, Repr

/-- One `forecast[month_key]` value. -/
structure ForecastEntry where
  products : List (String × FProd)
  notes : String
deriving DecidableEq, Repr

/-- One `forecast[month_key]` value of `forecast_next_year` (lines 64–80):
a month with no bucket keeps `{products: {}, notes: ""}`; otherwise the
notes field is the first collected note and each product (with a non-empty
volume list, the `if volumes:` guard) maps to the 4-decimal-rounded mean of
its collected volumes. -/
def mkForecastEntry (md : List (String × MonthAgg)) (name : String) : ForecastEntry :=
  match md.lookup name with
  | none => { products := [], notes := "" }
  | some agg =>
    { products := (agg.products.filter fun pr => pr.2.volumes ≠ []).map fun pr =>
        (pr.1, { volume := pyRound 4 (Q.div pr.2.volumes.sum ⟨(pr.2.volumes.length : ℤ), 1⟩),
                 unit := pr.2.unit, targets := pr.2.targets }),
      notes := agg.notes.headD "" }

/-- The forecast-building loop of `forecast_next_year` (lines 56–81):
twelve fixed slots `Month_1`..`Month_12` in calendar order. -/
def buildForecast (md : List (String × MonthAgg)) : List (String × ForecastEntry) :=
  (List.range 12).map fun i =>
    ("Month_" ++ toString (i + 1), mkForecastEntry md (monthNames.getD i ""))

/-- The calendar month number a record contributes to the month grouping of
`forecast_next_year` (`none` when the record is skipped by the falsy-date
guard). -/
def monthOf (r : Record) : Option Nat :=
  r.date.bind fun d =>
    if d = "" then none else (isoParse d).map fun t => t.2.1

/-- The `YYYY-MM` key a record contributes to `generate_historical_table`
(`none` when the record is skipped by the falsy-date guard). -/
def ymOf (r : Record) : Option String :=
  r.date.bind fun d =>
    if d = "" then none else (isoParse d).map fun t => formatYM t.1 t.2.1

/-- `forecast_next_year(records, trends)` (`src/analysis/forecasting.py`).
The returned pair carries, first, the state of the caller's `records` list
after the in-place `records.sort(...)` (line 22), and second, the forecast
dict. The sort raises `TypeError` when the collection mixes `None` and
string date keys (any list of length ≥ 2 containing an undated record);
`trends` is accepted and ignored, as in the source. -/
def forecast_next_year (records : List Record) (trends : List (String × List Q)) :
    Except String (List Record × List (String × ForecastEntry)) :=
  if pySortRaises records then
    .error "TypeError: < not supported between instances of str and NoneType"
  else
    let _ := trends
    let sorted := pySortDesc records
    match groupMonthly sorted with
    | .error e => .error e
    | .ok md => .ok (sorted, buildForecast md)

/-! ## Category classifier and historical table
(`src/analysis/forecasting.py`, lines 85–219) -/

/-- Python substring containment `needle in hay` on char lists. -/
def strSubstr (needle : List Char) : List Char → Bool
  | [] => exMatchAt needle []
  | hay@(_ :: t) => exMatchAt needle hay || strSubstr needle t

/-- Does any keyword of `kws` occur as a substring of `s`? (the
`any(x in prod_lower for x in [...])` tests). -/
def kwHit (kws : List String) (s : List Char) : Bool :=
  kws.any (fun k => strSubstr k.toList s)

/-- `categorize_product` (`src/analysis/forecasting.py`, lines 99–116):
case-insensitive substring matching against per-category keyword lists in a
fixed priority order. -/
def categorize_product (prodName : String) : String :=
  let l := pyLower prodName.toList
  if kwHit ["nitrogen", "potash", "phosphorus", "sulfur", "scu", "ubm", "iron"] l then
    "Fertilizer"
  else if kwHit ["weed", "manor", "atrazine", "certainty", "herbicide", "dicamba", "mcpa",
                 "mecoprop", "sulfosulfuron", "prodiamine", "indaziflam", "halosulfuron",
                 "celsius", "change up", "barricade", "specticle"] l then
    "Weed Control"
  else if kwHit ["iron", "spt iron"] l then
    "Iron/Micronutrient"
  else if kwHit ["sulfur", "dispersable"] l then
    "Sulfur"
  else if kwHit ["insect", "talstar", "bifenthrin", "acelepryn", "thiamethoxam",
                 "chlorantraniliprole"] l then
    "Insecticide"
  else if kwHit ["surfactant", "non-ionic"] l then
    "Surfactant"
  else
    "Other"

/-- Per-product value inside a `historical[month_str]["products"]` dict. -/
structure HProd where
  volume : Q
  unit : String
  category : String
deriving DecidableEq, Repr

/-- One `historical[month_str]` dict of `generate_historical_table`. -/
structure HMonth where
  date : String
  products : List (String × HProd)
  cats : List (String × Nat)
  notes : String
  embedding : Option (List Q)
  embSummary : String
  volumeTotal : Q
deriving DecidableEq, Repr

/-- One row of the output table. The category-count columns are listed in
the (sorted) `all_categories` order. -/
structure HRow where
  month : String
  date : String
  catCounts : List (String × Nat)
  totalVolume : Q
  embSummary : String
  notesPreview : String
deriving DecidableEq, Repr

/-- The `full_data` result of `generate_historical_table` (embedding
vectors abbreviated to the per-month vectors that are kept). -/
structure HistData where
  table : List HRow
  productCategories : List String
  monthEmbeddings : List (String × List Q)
  totalRecords : Nat
  dateRange : String
  embeddingDim : Nat
deriving DecidableEq, Repr

/-- The truthiness-aware embedding summary
`f"[{len(v)} dims]" if v else "N/A"` (an empty vector is falsy). -/
def embSummaryOf : Option (List Q) → String
  | some v => if v = [] then "N/A" else "[" ++ toString v.length ++ " dims]"
  | none => "N/A"

/-- The per-product inner loop of `generate_historical_table`
(lines 148–166): categorize, then create-or-accumulate the product volume,
bump the category count and the running month total. -/
def histApplyProd (p : Product) (hm : HMonth) : HMonth :=
  let cat := categorize_product p.name
  let hm :=
    if (hm.products.lookup p.name).isSome then
      let ps := updAL p.name (fun hp => { hp with volume := hp.volume + p.applied_amt }) hm.products
      { hm with products := ps }
    else
      let ps := hm.products ++ [(p.name, { volume := p.applied_amt, unit := p.unit, category := cat })]
      { hm with products := ps }
  let hm :=
    if (hm.cats.lookup cat).isSome then { hm with cats := updAL cat (· + 1) hm.cats }
    else { hm with cats := hm.cats ++ [(cat, 1)] }
  { hm with volumeTotal := hm.volumeTotal + p.applied_amt }

/-- One iteration of the record loop of `generate_historical_table`
(lines 122–166), threading the `historical` dict and `embedding_idx`.
Undated (falsy-date) records are skipped; on first sight of a `YYYY-MM` key
the month entry is created, consuming the next unused embedding vector iff
the record's notes are truthy, non-blank after strip, and the supplied
embedding list is not yet exhausted. -/
def histStep (acc : List (String × HMonth) × Nat) (embeddings : List (List Q)) (r : Record) :
    Except String (List (String × HMonth) × Nat) :=
  match r.date with
  | none => .ok acc
  | some d =>
    if d = "" then .ok acc else
    match isoParse d with
    | none => .error "ValueError: invalid isoformat string"
    | some (y, m, _) =>
      let ym := formatYM y m
      let (hist, idx) := acc
      let (hist, idx) :=
        if (hist.lookup ym).isSome then (hist, idx)
        else
          let consume := r.notes ≠ "" && pyStrip r.notes.toList ≠ [] && idx < embeddings.length
          let emb := if consume then embeddings.get? idx else none
          let idx := if consume then idx + 1 else idx
          (hist ++ [(ym, { date := d, products := [], cats := [], notes := r.notes,
                           embedding := emb, embSummary := embSummaryOf emb,
                           volumeTotal := 0 })], idx)
      .ok (r.products.foldl (fun h p => updAL ym (histApplyProd p) h) hist, idx)

/-- Key order for sorting the `historical` dict items (`sorted(...)` on
`(key, value)` tuples; keys are distinct so only the key matters). -/
def histKeyLE (a b : String × HMonth) : Prop :=
  pyStrLe a.1.toList b.1.toList = true

instance : DecidableRel histKeyLE :=
  fun _ _ => inferInstanceAs (Decidable (_ = true))

/-- Key order for `sorted(list(all_categories))`. -/
def catLE (a b : String) : Prop := pyStrLe a.toList b.toList = true

instance : DecidableRel catLE :=
  fun _ _ => inferInstanceAs (Decidable (_ = true))

/-- `generate_historical_table(records, embeddings)`
(`src/analysis/forecasting.py`, lines 85–219). After the record loop the
dict is sorted by key; the union of observed categories (sorted) gives the
column set; each row carries the category counts, the 2-decimal-rounded
total volume, the embedding summary and a cleaned 100-character notes
preview. Building the summary evaluates `min(...)`/`max(...)` over the
month keys, which raises `ValueError` when no record contributed a month. -/
def generate_historical_table (records : List Record) (embeddings : List (List Q)) :
    Except String HistData :=
  match records.foldlM (fun acc r => histStep acc embeddings r) (([], 0) :
      List (String × HMonth) × Nat) with
  | .error e => .error e
  | .ok (hist, _) =>
    let sortedHist := List.insertionSort histKeyLE hist
    let allCats := List.insertionSort catLE
      ((sortedHist.map (fun kv => kv.2.cats.map Prod.fst)).flatten.eraseDups)
    let table := sortedHist.map fun kv =>
      { month := kv.1
        date := kv.2.date
        catCounts := allCats.map fun c => (c, ((kv.2.cats.lookup c).getD 0))
        totalVolume := pyRound 2 kv.2.volumeTotal
        embSummary := kv.2.embSummary
        notesPreview :=
          String.mk (replaceAll "  ".toList " ".toList
            (replaceAll ['\n'] [' '] (kv.2.notes.toList.take 100))) }
    match sortedHist.head?, (sortedHist.map Prod.fst).getLast? with
    | some first, some last =>
      .ok { table := table
            productCategories := allCats
            monthEmbeddings := sortedHist.filterMap fun kv =>
              kv.2.embedding.bind fun v => if v = [] then none else some (kv.1, v)
            totalRecords := sortedHist.length
            dateRange := first.1 ++ " to " ++ last
            embeddingDim := ((embeddings.head?.map List.length).getD 0) }
    | _, _ => .error "ValueError: min() arg is an empty sequence"

/-- The call pattern of `main.py` (lines 74–89): `forecast_next_year` is
called on the `parsed` list, then `generate_historical_table` is called on
the same (now sorted-in-place) list with the same embeddings. -/
def mainPipeline (records : List Record) (embeddings : List (List Q))
    (trends : List (String × List Q)) :
    Except String (List (String × ForecastEntry) × HistData) :=
  match forecast_next_year records trends with
  | .error e => .error e
  | .ok (mutated, fc) =>
    match generate_historical_table mutated embeddings with
    | .error e => .error e
    | .ok t => .ok (fc, t)

/-! ## Substring lemmas for the category classifier -/

/-- A pattern matching at the head of `l` is a substring of `l`. -/
theorem exMatchAt_substr : ∀ (ys l : List Char), exMatchAt ys l = true → strSubstr ys l = true
  | _, [] => fun h => by simpa [strSubstr] using h
  | ys, c :: t => fun h => by simp [strSubstr, h]

/-- If `xs ++ ys` matches at the head of `l`, then `ys` is a substring of
`l`. -/
theorem exMatchAt_append_substr :
    ∀ (xs ys l : List Char), exMatchAt (xs ++ ys) l = true → strSubstr ys l = true
  | [], ys, l => fun h => exMatchAt_substr ys l (by simpa using h)
  | _ :: _, _, [] => fun h => by simp [exMatchAt] at h
  | x :: xs, ys, c :: t => fun h => by
    simp only [List.cons_append, exMatchAt, Bool.and_eq_true] at h
    have ih := exMatchAt_append_substr xs ys t h.2
    simp [strSubstr, ih]

/-- Any string containing `"spt iron"` also contains `"iron"`. -/
theorem strSubstr_spt_iron :
    ∀ l : List Char, strSubstr "spt iron".toList l = true → strSubstr "iron".toList l = true
  | [] => fun h => by simp [strSubstr, exMatchAt] at h
  | c :: t => fun h => by
    simp only [strSubstr, Bool.or_eq_true] at h
    rcases h with h | h
    · have e : "spt iron".toList = "spt ".toList ++ "iron".toList := by decide
      exact exMatchAt_append_substr _ _ _ (e ▸ h)
    · have ih := strSubstr_spt_iron t h
      simp only [strSubstr, Bool.or_eq_true]
      exact Or.inr ih

/-- C10: the Iron/Micronutrient branch of `categorize_product` is
unreachable, because both of its keywords contain `"iron"`, which is also a
Fertilizer keyword checked first. -/
theorem categorize_product_ne_iron (name : String) :
    categorize_product name ≠ "Iron/Micronutrient" := by
  unfold categorize_product
  dsimp only
  split_ifs with h1 h2 h3 h4 h5 h6 <;> try decide
  · exfalso
    apply h1
    simp only [kwHit, List.any_eq_true] at h3 ⊢
    rcases h3 with ⟨k, hk, hsub⟩
    simp only [List.mem_cons, List.not_mem_nil, or_false] at hk
    rcases hk with rfl | rfl
    · exact ⟨"iron", by simp, hsub⟩
    · exact ⟨"iron", by simp, strSubstr_spt_iron _ hsub⟩

/-! ## C8: total volume invariant -/

/-- The product loop accumulates `total_volume` in lockstep with the
emitted products. -/
theorem buildProducts_sum (t : List Char) :
    ∀ (ms : List AppliedMatch) (ss : Nat) (ps : List Product) (v : Q),
      buildProducts t ms ss = .ok (ps, v) → v = (ps.map (·.applied_amt)).sum
  | [], _, ps, v => fun h => by
    simp only [buildProducts, Except.ok.injEq, Prod.mk.injEq] at h
    simp [← h.1, ← h.2]
  | m :: rest, ss, ps, v => fun h => by
    rw [buildProducts] at h
    split at h
    · split at h
      · exact absurd h (by simp)
      · rename_i pv _ hrec
        simp only [Except.ok.injEq] at h
        subst h
        exact buildProducts_sum t rest m.stop _ _ hrec
      · rename_i p ps' v' _ hrec
        simp only [Except.ok.injEq, Prod.mk.injEq] at h
        obtain ⟨hps, hv⟩ := h
        have ih := buildProducts_sum t rest m.stop ps' v' hrec
        subst hps hv
        simp only [List.map_cons, List.sum_cons, ih]
        show Q.add ((ps'.map (·.applied_amt)).sum) _ = Q.add _ ((ps'.map (·.applied_amt)).sum)
        unfold Q.add
        rw [Int.add_comm, Int.mul_comm, Nat.mul_comm]
    · exact absurd h (by simp)

/-- C8: for every record returned by `parse_receipt`, `volume` equals the
exact sum of `applied_amt` over `products`. -/
theorem parse_receipt_volume_eq_sum (filename text : String) (r : Record)
    (h : parse_receipt filename text = .ok r) :
    r.volume = (r.products.map (·.applied_amt)).sum := by
  unfold parse_receipt at h
  dsimp only at h
  split at h
  · exact absurd h (by simp)
  · rename_i ps v heq
    simp only [Except.ok.injEq] at h
    subst h
    exact buildProducts_sum _ _ _ _ _ heq

/-- Witness for C8 at the empty document: the parse succeeds with no
products and zero volume. -/
theorem parse_receipt_volume_eq_sum_witness :
    (parse_receipt "f" "" = .ok ⟨"f", "", [], 0, 0, "", "", none⟩) ∧
      (⟨"f", "", [], 0, 0, "", "", none⟩ : Record).volume
        = (((⟨"f", "", [], 0, 0, "", "", none⟩ : Record)).products.map (·.applied_amt)).sum :=
  ⟨by decide, parse_receipt_volume_eq_sum "f" "" _ (by decide)⟩

/-! ## C1: totality of `parse_receipt` -/

/-- The product loop succeeds whenever every matched amount token is a
valid float literal. -/
theorem buildProducts_ok (t : List Char) :
    ∀ (ms : List AppliedMatch) (ss : Nat), (∀ m ∈ ms, floatOk m.amtTok = true) →
      ∃ pv, buildProducts t ms ss = .ok pv
  | [], _, _ => ⟨([], 0), rfl⟩
  | m :: rest, ss, h => by
    obtain ⟨⟨ps, v⟩, hrec⟩ :=
      buildProducts_ok t rest m.stop (fun x hx => h x (List.mem_cons_of_mem _ hx))
    rw [buildProducts, if_pos (h m (List.mem_cons_self _ _)), hrec]
    cases prodOfMatch t ss m
    · exact ⟨(ps, v), rfl⟩
    · exact ⟨_, rfl⟩

/-- C1 (counterexample to the claim as stated): the token `1.2.3` is
matched by `[\d\.]+` but `float("1.2.3")` raises `ValueError`, so
`parse_receipt` raises on this input instead of returning a record. -/
theorem parse_receipt_raises_on_malformed_float :
    parse_receipt "doc" "APPLIED AMT: 1.2.3 OZ \n"
      = .error "ValueError: could not convert string to float" := by decide

/-- C1 (amended): for every input whose matched amount tokens are all
valid float literals (at least one digit, at most one dot),
`parse_receipt` returns exactly one record, and every field whose pattern
is not found independently takes its default (empty notes, 0 sqft, empty
method/areas, absent date, empty products with zero volume). -/
theorem parse_receipt_total_with_defaults (filename text : String)
    (h : ∀ m ∈ appliedMatches text.toList, floatOk m.amtTok = true) :
    ∃ r, parse_receipt filename text = .ok r ∧
      (extractNotes text.toList = none → r.notes = "") ∧
      (extractSqft text.toList = none → r.property_sqft = 0) ∧
      (extractLabelLine "METHOD:".toList text.toList = none → r.method = "") ∧
      (extractLabelLine "AREAS:".toList text.toList = none → r.areas = "") ∧
      (extractDate text.toList = none → r.date = none) ∧
      (appliedMatches text.toList = [] → r.products = [] ∧ r.volume = 0) := by
  obtain ⟨⟨ps, v⟩, hbp⟩ := buildProducts_ok text.toList (appliedMatches text.toList) 0 h
  have hpr : parse_receipt filename text = .ok
      { filename := filename
        notes := match extractNotes text.toList with
                 | some g => String.mk (pyStrip g)
                 | none => ""
        products := ps
        volume := v
        property_sqft := (extractSqft text.toList).getD 0
        method := match extractLabelLine "METHOD:".toList text.toList with
                  | some g => String.mk (pyStrip g)
                  | none => ""
        areas := match extractLabelLine "AREAS:".toList text.toList with
                 | some g => String.mk (pyStrip g)
                 | none => ""
        date := extractDate text.toList } := by
    unfold parse_receipt
    dsimp only
    rw [hbp]
  refine ⟨_, hpr, fun hn => ?_, fun hn => ?_, fun hn => ?_, fun hn => ?_, fun hn => ?_,
    fun he => ?_⟩
  · dsimp only; rw [hn]
  · dsimp only; rw [hn]; rfl
  · dsimp only; rw [hn]
  · dsimp only; rw [hn]
  · dsimp only; exact hn
  · rw [he] at hbp
    have hinj : (([], 0) : List Product × Q) = (ps, v) := by
      simpa [buildProducts] using hbp
    exact ⟨congrArg Prod.fst hinj.symm, congrArg Prod.snd hinj.symm⟩

/-- Witness for C1 (amended) on a label-free document: the hypothesis
holds vacuously and the parse produces the all-defaults record. -/
theorem parse_receipt_total_with_defaults_witness :
    (∀ m ∈ appliedMatches ("no labels here" : String).toList, floatOk m.amtTok = true) ∧
      (∃ r, parse_receipt "f" "no labels here" = .ok r ∧
        (extractNotes ("no labels here" : String).toList = none → r.notes = "") ∧
        (extractSqft ("no labels here" : String).toList = none → r.property_sqft = 0) ∧
        (extractLabelLine "METHOD:".toList ("no labels here" : String).toList = none → r.method = "") ∧
        (extractLabelLine "AREAS:".toList ("no labels here" : String).toList = none → r.areas = "") ∧
        (extractDate ("no labels here" : String).toList = none → r.date = none) ∧
        (appliedMatches ("no labels here" : String).toList = [] → r.products = [] ∧ r.volume = 0)) :=
  ⟨by decide, parse_receipt_total_with_defaults "f" "no labels here" (by decide)⟩

/-! ## C5: the RATE: guard -/

/-- C5 (counterexample to the claim as stated): an "APPLIED AMT:"
occurrence of `2.5 FLOZ` whose only `RATE:` label occurs later in the text
is skipped entirely — no product is emitted, rather than one with unit
`OZ` and amount 2.5. -/
theorem applied_amt_without_preceding_rate_skipped :
    (parse_receipt "doc" "APPLIED AMT:\n2.5 FLOZ \nsomething\nRATE: 1.0\nOther Product\n").map
        (fun r => r.products) = .ok [] := by decide

/-- C5 (amended): when a `RATE:` label (with a non-blank product name line
before it) precedes the occurrence, the `2.5 FLOZ` entry contributes a
product with unit `"OZ"` (FLOZ normalized) and applied amount 2.5. -/
theorem floz_entry_with_preceding_rate :
    (parse_receipt "doc" "Nitro\nRATE: 1\nAPPLIED AMT:\n2.5 FLOZ \n").map (fun r => r.products)
      = .ok [{ name := "Nitro", rate := 0, applied_amt := ⟨5, 2⟩, unit := "OZ", targets := "" }] := by
  decide

/-! ## C2: the in-place sort raises on mixed dated/undated collections -/

/-- C2 (the code bug): `records.sort(key=lambda r: r.get("date", ""),
reverse=True)` raises `TypeError` on a collection mixing a dated and an
undated record, because the `"date"` key is present with value `None` and
the `.get` default never applies; a lone undated record (no comparison
performed) is excluded from month grouping and yields the all-empty
forecast. -/
theorem forecast_next_year_mixed_dates_raises :
    (forecast_next_year
        [⟨"a", "", [], 0, 0, "", "", some "2023-03-15"⟩,
         ⟨"u", "some note", [], 0, 0, "", "", none⟩] []
      = .error "TypeError: < not supported between instances of str and NoneType") ∧
      ((forecast_next_year [⟨"u", "some note", [], 0, 0, "", "", none⟩] []).map (fun p => p.2)
        = .ok ((List.range 12).map fun i =>
            ("Month_" ++ toString (i + 1), (⟨[], ""⟩ : ForecastEntry)))) :=
  ⟨by decide, by decide⟩

/-- C4 (counterexample to the claim as stated): on a collection mixing a
dated and an undated record, `forecast_next_year` raises instead of
returning the 12-key mapping. -/
theorem forecast_next_year_not_total :
    forecast_next_year
        [⟨"c", "", [], 0, 0, "", "", some "2022-07-01"⟩,
         ⟨"d", "", [], 0, 0, "", "", none⟩] []
      = .error "TypeError: < not supported between instances of str and NoneType" := by decide

/-! ## Association-list lemmas -/

/-- `updAL` leaves the key sequence of a dict unchanged. -/
theorem updAL_keys {ν : Type} (k : String) (f : ν → ν) :
    ∀ l : List (String × ν), (updAL k f l).map Prod.fst = l.map Prod.fst
  | [] => rfl
  | (k', v) :: t => by
    by_cases h : k' = k <;> simp [updAL, h, updAL_keys k f t]

/-- A fold of `updAL` updates leaves the key sequence unchanged. -/
theorem foldl_updAL_keys {ν α : Type} (key : String) (g : α → ν → ν) :
    ∀ (ps : List α) (h : List (String × ν)),
      ((ps.foldl (fun acc p => updAL key (g p) acc) h).map Prod.fst) = h.map Prod.fst
  | [], _ => rfl
  | p :: ps, h => by
    rw [List.foldl_cons, foldl_updAL_keys key g ps, updAL_keys]

/-- A successful lookup means the key occurs in the dict. -/
theorem mem_keys_of_lookup {ν : Type} (k : String) (v : ν) :
    ∀ l : List (String × ν), l.lookup k = some v → k ∈ l.map Prod.fst
  | [], h => by simp [List.lookup] at h
  | (k', v') :: t, h => by
    by_cases he : (k == k') = true
    · simp [eq_of_beq he]
    · have he' : (k == k') = false := by simpa using he
      rw [List.lookup, he'] at h
      exact List.mem_cons_of_mem _ (mem_keys_of_lookup k v t h)

/-- An absent key looks up to `none`. -/
theorem lookup_eq_none_of_not_mem {ν : Type} (k : String) :
    ∀ l : List (String × ν), k ∉ l.map Prod.fst → l.lookup k = none
  | [], _ => rfl
  | (k', v') :: t, h => by
    simp only [List.map_cons, List.mem_cons] at h
    push_neg at h
    rw [List.lookup, beq_false_of_ne h.1]
    exact lookup_eq_none_of_not_mem k t h.2

/-! ## C4: the forecast always has the twelve month keys -/

/-- A parsed ISO date has a calendar month between 1 and 12. -/
theorem isoParse_month_bounds {d : String} {y m dd : Nat}
    (h : isoParse d = some (y, m, dd)) : 1 ≤ m ∧ m ≤ 12 := by
  unfold isoParse at h
  split at h
  · split at h
    · dsimp only at h
      split at h
      · rename_i hval
        simp only [Option.some.injEq, Prod.mk.injEq] at h
        obtain ⟨-, hm, -⟩ := h
        simp only [validYMD, Bool.and_eq_true, decide_eq_true_eq] at hval
        exact ⟨hm ▸ hval.1.1.1.2, hm ▸ hval.1.1.2⟩
      · exact absurd h (by simp)
    · exact absurd h (by simp)
  · exact absurd h (by simp)

/-- The month a record contributes is between 1 and 12. -/
theorem monthOf_bounds {r : Record} {m : Nat} (h : monthOf r = some m) :
    1 ≤ m ∧ m ≤ 12 := by
  unfold monthOf at h
  cases hd : r.date with
  | none => rw [hd] at h; exact absurd h (by simp)
  | some d =>
    rw [hd] at h
    dsimp only [Option.bind] at h
    split at h
    · exact absurd h (by simp)
    · rw [Option.map_eq_some'] at h
      obtain ⟨⟨y, mo, dd⟩, hiso, hm⟩ := h
      exact hm ▸ isoParse_month_bounds hiso

/-- Distinct months in range have distinct `strftime("%B")` names. -/
theorem monthName_inj :
    ∀ a, a < 13 → ∀ b, b < 13 → 1 ≤ a → 1 ≤ b → monthName a = monthName b → a = b := by
  decide

/-- The grouping step succeeds on a record whose date, when present and
non-empty, is a valid ISO date. -/
theorem groupStep_ok (acc : List (String × MonthAgg)) (r : Record)
    (hr : ∀ d, r.date = some d → d ≠ "" → (isoParse d).isSome) :
    ∃ acc', groupStep acc r = .ok acc' := by
  unfold groupStep
  cases hd : r.date with
  | none => exact ⟨acc, rfl⟩
  | some d =>
    dsimp only
    by_cases he : d = ""
    · rw [if_pos he]; exact ⟨acc, rfl⟩
    · obtain ⟨⟨y, mo, dd⟩, hiso⟩ := Option.isSome_iff_exists.mp (hr d hd he)
      rw [if_neg he, hiso]
      exact ⟨_, rfl⟩

/-- The conditional notes update of `groupStep` leaves the keys
unchanged. -/
theorem ite_updAL_keys {ν : Type} (c : Prop) [Decidable c] (k : String) (f : ν → ν)
    (x : List (String × ν)) :
    ((if c then updAL k f x else x).map Prod.fst) = x.map Prod.fst := by
  split_ifs with h
  · exact updAL_keys k f x
  · rfl

/-- The conditional products fold of `groupStep` leaves the keys
unchanged. -/
theorem ite_foldl_updAL_keys {ν α : Type} (c : Prop) [Decidable c] (key : String)
    (g : α → ν → ν) (ps : List α) (x : List (String × ν)) :
    ((if c then ps.foldl (fun acc p => updAL key (g p) acc) x else x).map Prod.fst)
      = x.map Prod.fst := by
  split_ifs with h
  · exact foldl_updAL_keys key g ps x
  · rfl

theorem groupStep_keys {acc acc' : List (String × MonthAgg)} {r : Record}
    (h : groupStep acc r = .ok acc') :
    ∀ k, k ∈ acc'.map Prod.fst →
      k ∈ acc.map Prod.fst ∨ ∃ mo, monthOf r = some mo ∧ k = monthName mo := by
  unfold groupStep at h
  cases hd : r.date with
  | none =>
    rw [hd] at h
    simp only [Except.ok.injEq] at h
    subst h; exact fun k hk => Or.inl hk
  | some d =>
    rw [hd] at h
    dsimp only at h
    by_cases he : d = ""
    · rw [if_pos he] at h
      simp only [Except.ok.injEq] at h
      subst h; exact fun k hk => Or.inl hk
    · rw [if_neg he] at h
      cases hiso : isoParse d with
      | none => rw [hiso] at h; exact absurd h (by simp)
      | some t =>
        obtain ⟨y, mo, dd⟩ := t
        rw [hiso] at h
        dsimp only at h
        simp only [Except.ok.injEq] at h
        subst h
        intro k hk
        have hmo : monthOf r = some mo := by
          unfold monthOf
          rw [hd]
          dsimp only [Option.bind]
          rw [if_neg he, hiso]
          rfl
        rw [ite_foldl_updAL_keys, ite_updAL_keys] at hk
        by_cases hl : (acc.lookup (monthName mo)).isSome = true
        · rw [if_pos hl] at hk
          exact Or.inl hk
        · rw [if_neg hl] at hk
          simp only [List.map_append, List.mem_append, List.map_cons, List.map_nil,
            List.mem_singleton] at hk
          rcases hk with hk | hk
          · exact Or.inl hk
          · exact Or.inr ⟨mo, hmo, hk⟩

/-- The whole grouping fold succeeds on valid dates. -/
theorem foldlM_groupStep_ok :
    ∀ (l : List Record) (acc : List (String × MonthAgg)),
      (∀ r ∈ l, ∀ d, r.date = some d → d ≠ "" → (isoParse d).isSome) →
      ∃ md, List.foldlM groupStep acc l = .ok md
  | [], acc, _ => ⟨acc, rfl⟩
  | r :: l, acc, h => by
    obtain ⟨acc', hstep⟩ := groupStep_ok acc r (h r (List.mem_cons_self _ _))
    obtain ⟨md, hrest⟩ :=
      foldlM_groupStep_ok l acc' (fun x hx => h x (List.mem_cons_of_mem _ hx))
    refine ⟨md, ?_⟩
    rw [List.foldlM_cons, hstep]
    exact hrest

/-- Any key of the final `monthly_data` dict is an initial key or the month
name of some processed record. -/
theorem foldlM_groupStep_keys :
    ∀ (l : List Record) (acc md : List (String × MonthAgg)),
      List.foldlM groupStep acc l = .ok md →
      ∀ k, k ∈ md.map Prod.fst →
        k ∈ acc.map Prod.fst ∨ ∃ r ∈ l, ∃ mo, monthOf r = some mo ∧ k = monthName mo
  | [], acc, md, h => by
    have hacc : acc = md := by
      have h' : Except.ok (ε := String) acc = Except.ok md := h
      simpa using h'
    subst hacc
    exact fun k hk => Or.inl hk
  | r :: l, acc, md, h => by
    rw [List.foldlM_cons] at h
    cases hstep : groupStep acc r with
    | error e =>
      rw [hstep] at h
      exact absurd h (by simp [Bind.bind, Except.bind])
    | ok acc' =>
      rw [hstep] at h
      have h' : List.foldlM groupStep acc' l = .ok md := h
      intro k hk
      rcases foldlM_groupStep_keys l acc' md h' k hk with hin | ⟨r', hr', rest⟩
      · rcases groupStep_keys hstep k hin with h1 | h2
        · exact Or.inl h1
        · exact Or.inr ⟨r, List.mem_cons_self _ _, h2⟩
      · exact Or.inr ⟨r', List.mem_cons_of_mem _ hr', rest⟩

/-- The key sequence of the forecast dict is `Month_1`..`Month_12`,
independently of the input. -/
theorem buildForecast_keys (md : List (String × MonthAgg)) :
    (buildForecast md).map Prod.fst
      = (List.range 12).map (fun i => "Month_" ++ toString (i + 1)) := rfl

/-- A month with no bucket in `monthly_data` gets the all-empty forecast
entry. -/
theorem buildForecast_lookup_empty (md : List (String × MonthAgg)) (m : Nat)
    (h1 : 1 ≤ m) (h2 : m ≤ 12) (hnone : md.lookup (monthName m) = none) :
    (buildForecast md).lookup ("Month_" ++ toString m) = some ⟨[], ""⟩ := by
  have key : (buildForecast md).lookup ("Month_" ++ toString m)
      = some (mkForecastEntry md (monthName m)) := by
    interval_cases m <;> rfl
  rw [key]
  unfold mkForecastEntry
  rw [hnone]

/-- C4 (amended): on every collection on which the date sort does not
raise and whose present, non-empty dates are valid ISO dates,
`forecast_next_year` returns a mapping whose keys are exactly
`Month_1`..`Month_12` in calendar order, and every month with no dated
history maps to the empty entry (no products, empty notes). -/
theorem forecast_next_year_twelve_keys (records : List Record)
    (trends : List (String × List Q))
    (hs : pySortRaises records = false)
    (hv : ∀ r ∈ records, ∀ d, r.date = some d → d ≠ "" → (isoParse d).isSome) :
    ∃ pr, forecast_next_year records trends = .ok pr ∧
      pr.2.map Prod.fst = (List.range 12).map (fun i => "Month_" ++ toString (i + 1)) ∧
      ∀ m, 1 ≤ m → m ≤ 12 → (∀ r ∈ records, monthOf r ≠ some m) →
        pr.2.lookup ("Month_" ++ toString m) = some ⟨[], ""⟩ := by
  have hv' : ∀ r ∈ pySortDesc records, ∀ d, r.date = some d → d ≠ "" → (isoParse d).isSome := by
    intro r hr
    exact hv r ((List.mem_insertionSort recDescLE).mp hr)
  obtain ⟨md, hmd⟩ := foldlM_groupStep_ok (pySortDesc records) [] hv'
  refine ⟨(pySortDesc records, buildForecast md), ?_, buildForecast_keys md, ?_⟩
  · unfold forecast_next_year
    rw [if_neg (by simp [hs])]
    dsimp only
    unfold groupMonthly
    rw [hmd]
  · intro m h1 h2 hnom
    refine buildForecast_lookup_empty md m h1 h2 ?_
    by_contra hlk
    obtain ⟨v, hv2⟩ := Option.ne_none_iff_exists'.mp hlk
    have hmem := mem_keys_of_lookup _ _ _ hv2
    rcases foldlM_groupStep_keys (pySortDesc records) [] md hmd _ hmem with hin | ⟨r, hr, mo, hmo, hname⟩
    · simp at hin
    · have hb := monthOf_bounds hmo
      have : mo = m := by
        have := monthName_inj mo (by omega) m (by omega) hb.1 h1 hname.symm
        omega
      subst this
      exact hnom r ((List.mem_insertionSort recDescLE).mp hr) hmo

/-- Witness for C4 (amended) at the empty collection. -/
theorem forecast_next_year_twelve_keys_witness :
    (pySortRaises [] = false) ∧
      (∃ pr, forecast_next_year [] [] = .ok pr ∧
        pr.2.map Prod.fst = (List.range 12).map (fun i => "Month_" ++ toString (i + 1)) ∧
        ∀ m, 1 ≤ m → m ≤ 12 → (∀ r ∈ ([] : List Record), monthOf r ≠ some m) →
          pr.2.lookup ("Month_" ++ toString m) = some ⟨[], ""⟩) :=
  ⟨by decide, forecast_next_year_twelve_keys [] [] (by decide) (by simp)⟩

/-! ## C3: cross-year March averaging -/

/-- Evaluation of one grouping step on a record with a present, non-empty,
valid date (the body of the loop with the guards discharged). -/
theorem groupStep_eval (acc : List (String × MonthAgg)) (r : Record) (d : String)
    (y m dd : Nat) (hd : r.date = some d) (hne : d ≠ "")
    (hiso : isoParse d = some (y, m, dd)) :
    groupStep acc r = .ok (
      let key := monthName m
      let hist := if (acc.lookup key).isSome then acc else acc ++ [(key, ⟨[], []⟩)]
      let hist := if r.notes ≠ "" then
          updAL key (fun agg => { agg with notes := agg.notes ++ [r.notes] }) hist
        else hist
      if r.products ≠ [] then
        r.products.foldl (fun h p =>
          updAL key (fun agg =>
            let ps := if (agg.products.lookup p.name).isSome then agg.products
                      else agg.products ++ [(p.name, ⟨[], p.unit, p.targets⟩)]
            let ps := updAL p.name
              (fun pa => { pa with volumes := pa.volumes ++ [p.applied_amt] }) ps
            { agg with products := ps }) h) hist
      else hist) := by
  unfold groupStep
  rw [hd]
  dsimp only
  rw [if_neg hne, hiso]

/-- C3: two records dated in March of two different years, each applying
"Nitrogen Blend" (10.0 OZ and 14.0 OZ respectively), forecast a `Month_3`
volume of 12.0 for that product — cross-year grouping by month name and
arithmetic mean rounded to 4 decimal places. -/
theorem forecast_march_nitrogen_mean (d1 d2 : String) (y1 y2 a1 a2 : Nat)
    (h1 : isoParse d1 = some (y1, 3, a1)) (h2 : isoParse d2 = some (y2, 3, a2))
    (_hy : y1 ≠ y2) :
    ∃ pr, forecast_next_year
        [⟨"a", "", [⟨"Nitrogen Blend", 0, ⟨10, 1⟩, "OZ", ""⟩], ⟨10, 1⟩, 0, "", "", some d1⟩,
         ⟨"b", "", [⟨"Nitrogen Blend", 0, ⟨14, 1⟩, "OZ", ""⟩], ⟨14, 1⟩, 0, "", "", some d2⟩] []
      = .ok pr ∧
      pr.2.lookup "Month_3" = some ⟨[("Nitrogen Blend", ⟨⟨12, 1⟩, "OZ", ""⟩)], ""⟩ := by
  have hne1 : d1 ≠ "" := by intro he; rw [he] at h1; simp [isoParse] at h1
  have hne2 : d2 ≠ "" := by intro he; rw [he] at h2; simp [isoParse] at h2
  set x : Record := ⟨"a", "", [⟨"Nitrogen Blend", 0, ⟨10, 1⟩, "OZ", ""⟩], ⟨10, 1⟩, 0, "", "", some d1⟩ with hxdef
  set y : Record := ⟨"b", "", [⟨"Nitrogen Blend", 0, ⟨14, 1⟩, "OZ", ""⟩], ⟨14, 1⟩, 0, "", "", some d2⟩ with hydef
  have hraise : ¬(pySortRaises [x, y] = true) := by
    simp [pySortRaises, hxdef, hydef]
  have hsort : pySortDesc [x, y] = [x, y] ∨ pySortDesc [x, y] = [y, x] := by
    unfold pySortDesc
    by_cases hc : recDescLE x y
    · left; simp [List.insertionSort, List.orderedInsert, hc]
    · right; simp [List.insertionSort, List.orderedInsert, hc]
  rcases hsort with hs | hs
  · have e1 : groupStep [] x = .ok
        [("March", ⟨[("Nitrogen Blend", ⟨[⟨10, 1⟩], "OZ", ""⟩)], []⟩)] := by
      rw [groupStep_eval [] x d1 y1 3 a1 rfl hne1 h1, hxdef]
      rfl
    have e2 : groupStep
        [("March", ⟨[("Nitrogen Blend", ⟨[⟨10, 1⟩], "OZ", ""⟩)], []⟩)] y = .ok
        [("March", ⟨[("Nitrogen Blend", ⟨[⟨10, 1⟩, ⟨14, 1⟩], "OZ", ""⟩)], []⟩)] := by
      rw [groupStep_eval _ y d2 y2 3 a2 rfl hne2 h2, hydef]
      rfl
    have hgm : groupMonthly [x, y] = .ok
        [("March", ⟨[("Nitrogen Blend", ⟨[⟨10, 1⟩, ⟨14, 1⟩], "OZ", ""⟩)], []⟩)] := by
      unfold groupMonthly
      rw [List.foldlM_cons, e1]
      show List.foldlM groupStep _ [y] = _
      rw [List.foldlM_cons, e2]
      rfl
    refine ⟨([x, y], buildForecast
        [("March", ⟨[("Nitrogen Blend", ⟨[⟨10, 1⟩, ⟨14, 1⟩], "OZ", ""⟩)], []⟩)]), ?_, ?_⟩
    · unfold forecast_next_year
      rw [if_neg hraise]
      dsimp only
      rw [hs, hgm]
    · rfl
  · have e1 : groupStep [] y = .ok
        [("March", ⟨[("Nitrogen Blend", ⟨[⟨14, 1⟩], "OZ", ""⟩)], []⟩)] := by
      rw [groupStep_eval [] y d2 y2 3 a2 rfl hne2 h2, hydef]
      rfl
    have e2 : groupStep
        [("March", ⟨[("Nitrogen Blend", ⟨[⟨14, 1⟩], "OZ", ""⟩)], []⟩)] x = .ok
        [("March", ⟨[("Nitrogen Blend", ⟨[⟨14, 1⟩, ⟨10, 1⟩], "OZ", ""⟩)], []⟩)] := by
      rw [groupStep_eval _ x d1 y1 3 a1 rfl hne1 h1, hxdef]
      rfl
    have hgm : groupMonthly [y, x] = .ok
        [("March", ⟨[("Nitrogen Blend", ⟨[⟨14, 1⟩, ⟨10, 1⟩], "OZ", ""⟩)], []⟩)] := by
      unfold groupMonthly
      rw [List.foldlM_cons, e1]
      show List.foldlM groupStep _ [x] = _
      rw [List.foldlM_cons, e2]
      rfl
    refine ⟨([y, x], buildForecast
        [("March", ⟨[("Nitrogen Blend", ⟨[⟨14, 1⟩, ⟨10, 1⟩], "OZ", ""⟩)], []⟩)]), ?_, ?_⟩
    · unfold forecast_next_year
      rw [if_neg hraise]
      dsimp only
      rw [hs, hgm]
    · rfl

/-! ## C6: the targets window -/

/-- A case-insensitive match needs at least as many characters as the
pattern. -/
theorem lcMatchAt_length : ∀ {pat s : List Char}, lcMatchAt pat s = true → pat.length ≤ s.length
  | [], _, _ => Nat.zero_le _
  | _ :: _, [], h => by simp [lcMatchAt] at h
  | p :: ps, c :: cs, h => by
    simp only [lcMatchAt, Bool.and_eq_true] at h
    simpa using lcMatchAt_length h.2

/-- Every boundary literal is at least five characters long. -/
theorem boundaryLits_length : ∀ lit ∈ boundaryLits, 5 ≤ lit.length := by decide

/-- A boundary match needs at least five characters of text. -/
theorem boundAtHead_length {s : List Char} (h : boundAtHead s = true) : 5 ≤ s.length := by
  simp only [boundAtHead, List.any_eq_true] at h
  obtain ⟨lit, hmem, hmatch⟩ := h
  exact le_trans (boundaryLits_length lit hmem) (lcMatchAt_length hmatch)

/-- No boundary literal starts at a whitespace character. -/
theorem boundAtHead_space {c : Char} (hc : pyIsSpace c = true) (l : List Char) :
    boundAtHead (c :: l) = false := by
  have hc' : c = ' ' ∨ c = '\t' ∨ c = '\n' ∨ c = '\x0d' ∨ c = '\x0b' ∨ c = '\x0c' := by
    by_contra hno
    push_neg at hno
    obtain ⟨h1, h2, h3, h4, h5, h6⟩ := hno
    simp [pyIsSpace, h1, h2, h3, h4, h5, h6] at hc
  rcases hc' with rfl | rfl | rfl | rfl | rfl | rfl <;> rfl

/-- The whitespace run is bounded by the string length. -/
theorem wsRun_le : ∀ l : List Char, wsRun l ≤ l.length
  | [] => Nat.le_refl _
  | c :: t => by
    rw [wsRun]
    split
    · simpa using wsRun_le t
    · simp

/-- Every character inside the whitespace run is whitespace. -/
theorem wsRun_take_all : ∀ (l : List Char), ∀ c ∈ l.take (wsRun l), pyIsSpace c = true
  | [] => by simp
  | c :: t => by
    rw [wsRun]
    split
    · rename_i hsp
      intro x hx
      rw [List.take_succ_cons] at hx
      rcases List.mem_cons.mp hx with rfl | hx
      · exact hsp
      · exact wsRun_take_all t x hx
    · simp

/-- Prepending whitespace shifts the first boundary position. -/
theorem firstBound_append_ws :
    ∀ (ws body : List Char), (∀ c ∈ ws, pyIsSpace c = true) →
      firstBound (ws ++ body) = ws.length + firstBound body
  | [], body, _ => by simp
  | c :: ws, body, h => by
    have hc : pyIsSpace c = true := h c (List.mem_cons_self _ _)
    rw [List.cons_append, firstBound, if_neg (by simp [boundAtHead_space hc])]
    rw [firstBound_append_ws ws body (fun x hx => h x (List.mem_cons_of_mem _ hx))]
    simp [Nat.add_assoc, Nat.add_comm, Nat.add_left_comm]

/-- The first boundary position is bounded by the string length. -/
theorem firstBound_le : ∀ l : List Char, firstBound l ≤ l.length
  | [] => Nat.le_refl _
  | c :: t => by
    rw [firstBound]
    split
    · simp
    · simpa using firstBound_le t

/-- When a boundary occurs, the lazy group stops exactly there (the `$`
alternatives lie strictly beyond any boundary occurrence). -/
theorem firstLook_eq_firstBound :
    ∀ (body : List Char), firstBound body < body.length → firstLook body = firstBound body
  | [], h => absurd h (by simp)
  | c :: t, h => by
    by_cases hb : boundAtHead (c :: t) = true
    · rw [firstLook, firstBound, if_pos (by simp [hb]), if_pos hb]
    · rw [firstBound, if_neg hb] at h
      have ht : firstBound t < t.length := by simpa using h
      have hne : ¬(c :: t = ['\n']) := by
        intro he
        obtain ⟨rfl, rfl⟩ : c = '\n' ∧ t = [] := by simpa using he
        simp [firstBound] at ht
      rw [firstLook, if_neg (by simp [hb, hne]), firstBound, if_neg hb,
        firstLook_eq_firstBound t ht]

/-- When no boundary occurs, the lazy group takes the whole text, except
that a string-final newline is left out (the non-MULTILINE `$` matches
just before it). -/
theorem firstLook_no_bound :
    ∀ (body : List Char), firstBound body = body.length →
      body.take (firstLook body) = body ∨
        (body.getLast? = some '\n' ∧ body.take (firstLook body) = body.dropLast)
  | [], _ => Or.inl rfl
  | c :: t, h => by
    rw [firstBound] at h
    split at h
    · simp at h
    · rename_i hb
      by_cases he : c :: t = ['\n']
      · right
        obtain ⟨rfl, rfl⟩ : c = '\n' ∧ t = [] := by simpa using he
        refine ⟨rfl, ?_⟩
        rw [firstLook, if_pos (by simp)]
        rfl
      · rw [firstLook, if_neg (by simp [hb, he])]
        have ht : firstBound t = t.length := by simpa using h
        rcases firstLook_no_bound t ht with h1 | ⟨h1, h2⟩
        · left
          rw [List.take_succ_cons, h1]
        · right
          have htne : t ≠ [] := by
            intro hte
            subst hte
            simp at h1
          constructor
          · rw [List.getLast?_cons, h1]
            simp [htne]
          · rw [List.take_succ_cons, h2]
            obtain ⟨a, as, rfl⟩ := List.exists_cons_of_ne_nil htne
            rfl

/-- Stripping ignores prepended whitespace. -/
theorem pyStrip_ws_append (ws x : List Char) (h : ∀ c ∈ ws, pyIsSpace c = true) :
    pyStrip (ws ++ x) = pyStrip x := by
  unfold pyStrip
  rw [List.dropWhile_append_of_pos h]

/-- Stripping ignores appended whitespace. -/
theorem pyStrip_append_ws (x ws : List Char) (h : ∀ c ∈ ws, pyIsSpace c = true) :
    pyStrip (x ++ ws) = pyStrip x := by
  unfold pyStrip
  rw [List.dropWhile_append]
  split
  · rename_i hxe
    rw [List.dropWhile_eq_nil_iff.mpr h]
    rw [List.isEmpty_iff] at hxe
    rw [hxe]
  · rw [List.reverse_append, List.dropWhile_append_of_pos (by simpa using h)]

/-- Stripping ignores a string-final newline. -/
theorem pyStrip_dropLast_newline (l : List Char) (h : l.getLast? = some '\n') :
    pyStrip l.dropLast = pyStrip l := by
  obtain ⟨ys, rfl⟩ := List.getLast?_eq_some_iff.mp h
  rw [List.dropLast_concat, pyStrip_append_ws ys ['\n'] (by simp [pyIsSpace])]

/-- The group text of the targets regex and the label-window of the
amended claim strip to the same string. -/
theorem targets_strip_eq (rest : List Char) :
    pyStrip ((rest.drop (wsRun rest)).take (firstLook (rest.drop (wsRun rest))))
      = pyStrip (rest.take (firstBound rest)) := by
  have hws : ∀ c ∈ rest.take (wsRun rest), pyIsSpace c = true := wsRun_take_all rest
  have hlen : (rest.take (wsRun rest)).length = wsRun rest := by
    rw [List.length_take]
    exact Nat.min_eq_left (wsRun_le rest)
  have e1 : rest.take (wsRun rest) ++ rest.drop (wsRun rest) = rest :=
    List.take_append_drop _ _
  have hfb : firstBound rest = wsRun rest + firstBound (rest.drop (wsRun rest)) := by
    conv_lhs => rw [← e1]
    rw [firstBound_append_ws _ _ hws, hlen]
  have htake : rest.take (firstBound rest)
      = rest.take (wsRun rest) ++ (rest.drop (wsRun rest)).take (firstBound (rest.drop (wsRun rest))) :=
    calc rest.take (firstBound rest)
        = (rest.take (wsRun rest) ++ rest.drop (wsRun rest)).take
            ((rest.take (wsRun rest)).length + firstBound (rest.drop (wsRun rest))) := by
          rw [e1, hlen, ← hfb]
      _ = rest.take (wsRun rest)
            ++ (rest.drop (wsRun rest)).take (firstBound (rest.drop (wsRun rest))) :=
        List.take_append _
  rw [htake, pyStrip_ws_append _ _ hws]
  rcases Nat.lt_or_ge (firstBound (rest.drop (wsRun rest))) (rest.drop (wsRun rest)).length
    with hlt | hge
  · rw [firstLook_eq_firstBound _ hlt]
  · have heq : firstBound (rest.drop (wsRun rest)) = (rest.drop (wsRun rest)).length :=
      le_antisymm (firstBound_le _) hge
    rw [heq, List.take_length]
    rcases firstLook_no_bound _ heq with h1 | ⟨h1, h2⟩
    · rw [h1]
    · rw [h2]
      exact pyStrip_dropLast_newline _ h1

/-- C6 (amended): the targets string produced by the extractor equals, for
every suffix, the value described by the amended claim — the first line
(after trimming, truncated to 100 characters) of the window that starts
after the first `TARGETS:` label following the match and runs to the next
boundary label or the end of the document; empty when no label follows. -/
theorem codeTargets_eq_labelWindow (after : List Char) :
    codeTargets after = specTargetsLabelWindow after := by
  unfold codeTargets specTargetsLabelWindow
  cases hf : findCI "TARGETS:".toList after with
  | none => rfl
  | some p =>
    dsimp only
    rw [targets_strip_eq (after.drop (p + 8))]

/-- C6 (counterexample to the claim as stated): a product whose match is
followed by the line "Broadleaf Weeds, Clover" but by no `TARGETS:` label
gets an empty targets string, while the claimed adjacent-window rule would
produce that line. -/
theorem targets_not_adjacent_window :
    ((parse_receipt "doc" "Prod\nRATE: 5\nAPPLIED AMT: 2.0 OZ \nBroadleaf Weeds, Clover\n").map
        (fun r => r.products.map (fun p => p.targets)) = .ok [""]) ∧
      ((appliedMatches ("Prod\nRATE: 5\nAPPLIED AMT: 2.0 OZ \nBroadleaf Weeds, Clover\n" :
          String).toList).map (fun m => m.stop) = [33]) ∧
      claimTargetsAdjacentWindow
          (("Prod\nRATE: 5\nAPPLIED AMT: 2.0 OZ \nBroadleaf Weeds, Clover\n" :
            String).toList.drop 33)
        = "Broadleaf Weeds, Clover" ∧
      ("" : String) ≠ "Broadleaf Weeds, Clover" :=
  ⟨by decide, by decide, by decide, by decide⟩

/-! ## The computable string order agrees with the mathematical one -/

/-- `pyStrLt` decides the lexicographic order on char lists. -/
theorem pyStrLt_iff_lex : ∀ a b : List Char, pyStrLt a b = true ↔ a < b
  | [], [] => iff_of_false (by simp [pyStrLt]) (fun h => by cases h)
  | [], _ :: _ => iff_of_true rfl List.Lex.nil
  | _ :: _, [] => iff_of_false (by simp [pyStrLt]) (fun h => by cases h)
  | a :: as, b :: bs => by
    simp only [pyStrLt, Bool.or_eq_true, Bool.and_eq_true, decide_eq_true_eq, beq_iff_eq]
    constructor
    · rintro (h | ⟨rfl, h⟩)
      · exact List.Lex.rel h
      · exact List.Lex.cons ((pyStrLt_iff_lex as bs).mp h)
    · intro h
      cases h with
      | cons h => exact Or.inr ⟨rfl, (pyStrLt_iff_lex as bs).mpr h⟩
      | rel h => exact Or.inl h

/-- `pyStrLt` on the character lists decides `<` on strings. -/
theorem pyStrLt_iff_string (a b : String) : pyStrLt a.toList b.toList = true ↔ a < b :=
  (pyStrLt_iff_lex _ _).trans String.lt_iff_toList_lt.symm

/-- `pyStrLe` on the character lists decides `≤` on strings. -/
theorem pyStrLe_iff (a b : String) : pyStrLe a.toList b.toList = true ↔ a ≤ b := by
  unfold pyStrLe
  rw [Bool.not_eq_true']
  rw [← not_lt (α := String) (a := b) (b := a)]
  rw [← pyStrLt_iff_string b a]
  exact Bool.eq_false_iff.trans Iff.rfl

instance : IsTotal (String × HMonth) histKeyLE :=
  ⟨fun a b => (le_total a.1 b.1).imp (pyStrLe_iff _ _).mpr (pyStrLe_iff _ _).mpr⟩

instance : IsTrans (String × HMonth) histKeyLE :=
  ⟨fun _ _ _ h1 h2 => (pyStrLe_iff _ _).mpr
    (le_trans ((pyStrLe_iff _ _).mp h1) ((pyStrLe_iff _ _).mp h2))⟩

/-! ## C9: the in-place sort and its downstream effect -/

/-- C9: `forecast_next_year` returns the caller's list re-ordered by the
stable descending date sort (the in-place `records.sort`); on a concrete
two-record May history in which the older record comes first, the caller's
order changes, and `generate_historical_table` over the mutated list — the
`main.py` pipeline — attaches the newest record's notes to the `2024-05`
row, while the originally supplied order would attach the oldest's. -/
theorem forecast_next_year_sorts_in_place :
    (∀ (records : List Record) (trends : List (String × List Q)) pr,
        forecast_next_year records trends = .ok pr → pr.1 = pySortDesc records) ∧
      (pySortDesc
          [⟨"o", "old visit", [⟨"Talstar Pro", 0, ⟨2, 1⟩, "OZ", ""⟩], ⟨2, 1⟩, 0, "", "",
             some "2024-05-02"⟩,
           ⟨"n", "new visit", [⟨"SPT Iron", 0, ⟨3, 1⟩, "OZ", ""⟩], ⟨3, 1⟩, 0, "", "",
             some "2024-05-20"⟩]
        ≠ [⟨"o", "old visit", [⟨"Talstar Pro", 0, ⟨2, 1⟩, "OZ", ""⟩], ⟨2, 1⟩, 0, "", "",
             some "2024-05-02"⟩,
           ⟨"n", "new visit", [⟨"SPT Iron", 0, ⟨3, 1⟩, "OZ", ""⟩], ⟨3, 1⟩, 0, "", "",
             some "2024-05-20"⟩]) ∧
      ((mainPipeline
          [⟨"o", "old visit", [⟨"Talstar Pro", 0, ⟨2, 1⟩, "OZ", ""⟩], ⟨2, 1⟩, 0, "", "",
             some "2024-05-02"⟩,
           ⟨"n", "new visit", [⟨"SPT Iron", 0, ⟨3, 1⟩, "OZ", ""⟩], ⟨3, 1⟩, 0, "", "",
             some "2024-05-20"⟩] [[⟨1, 1⟩], [⟨2, 1⟩]] []).map
            (fun p => p.2.table.map (fun row => row.notesPreview))
        = .ok ["new visit"]) ∧
      ((generate_historical_table
          [⟨"o", "old visit", [⟨"Talstar Pro", 0, ⟨2, 1⟩, "OZ", ""⟩], ⟨2, 1⟩, 0, "", "",
             some "2024-05-02"⟩,
           ⟨"n", "new visit", [⟨"SPT Iron", 0, ⟨3, 1⟩, "OZ", ""⟩], ⟨3, 1⟩, 0, "", "",
             some "2024-05-20"⟩] [[⟨1, 1⟩], [⟨2, 1⟩]]).map
            (fun t => t.table.map (fun row => row.notesPreview))
        = .ok ["old visit"]) := by
  refine ⟨?_, by decide, by decide, by decide⟩
  intro records trends pr h
  unfold forecast_next_year at h
  split at h
  · exact absurd h (by simp)
  · dsimp only at h
    split at h
    · exact absurd h (by simp)
    · simp only [Except.ok.injEq] at h
      rw [← h]

/-- Witness for C9 applying the sort equation at the empty collection. -/
theorem forecast_next_year_sorts_in_place_witness :
    (([], (List.range 12).map fun i => ("Month_" ++ toString (i + 1), (⟨[], ""⟩ : ForecastEntry))) :
        List Record × List (String × ForecastEntry)).1 = pySortDesc [] :=
  forecast_next_year_sorts_in_place.1 [] [] _ (by decide)

/-! ## C7: historical table rows -/

/-- A present key looks up to `some`. -/
theorem mem_keys_lookup_isSome {ν : Type} (k : String) :
    ∀ l : List (String × ν), k ∈ l.map Prod.fst → (l.lookup k).isSome = true
  | [], h => by simp at h
  | (k', v') :: t, h => by
    by_cases he : (k == k') = true
    · rw [List.lookup, he]; rfl
    · have he' : (k == k') = false := by simpa using he
      rw [List.lookup, he']
      refine mem_keys_lookup_isSome k t ?_
      simp only [List.map_cons, List.mem_cons] at h
      rcases h with rfl | h
      · simp at he'
      · exact h

/-- The historical-table step succeeds on a record whose date, when
present and non-empty, is a valid ISO date. -/
theorem histStep_ok (hist0 : List (String × HMonth)) (idx0 : Nat)
    (embeddings : List (List Q)) (r : Record)
    (hr : ∀ d, r.date = some d → d ≠ "" → (isoParse d).isSome) :
    ∃ acc', histStep (hist0, idx0) embeddings r = .ok acc' := by
  unfold histStep
  cases hd : r.date with
  | none => exact ⟨(hist0, idx0), rfl⟩
  | some d =>
    dsimp only
    by_cases he : d = ""
    · rw [if_pos he]; exact ⟨(hist0, idx0), rfl⟩
    · obtain ⟨⟨y, mo, dd⟩, hiso⟩ := Option.isSome_iff_exists.mp (hr d hd he)
      rw [if_neg he, hiso]
      exact ⟨_, rfl⟩

/-- How one historical-table step changes the key sequence: not at all for
a record without a year-month, not at all when the record's key is already
present, and by appending the fresh key otherwise. -/
theorem histStep_keys {hist0 : List (String × HMonth)} {idx0 : Nat}
    {embeddings : List (List Q)} {r : Record} {hist' : List (String × HMonth)} {idx' : Nat}
    (h : histStep (hist0, idx0) embeddings r = .ok (hist', idx')) :
    (ymOf r = none ∧ hist' = hist0) ∨
      ∃ ym, ymOf r = some ym ∧
        ((ym ∈ hist0.map Prod.fst ∧ hist'.map Prod.fst = hist0.map Prod.fst) ∨
         (ym ∉ hist0.map Prod.fst ∧ hist'.map Prod.fst = hist0.map Prod.fst ++ [ym])) := by
  unfold histStep at h
  cases hd : r.date with
  | none =>
    rw [hd] at h
    simp only [Except.ok.injEq, Prod.mk.injEq] at h
    exact Or.inl ⟨by simp [ymOf, hd], h.1.symm⟩
  | some d =>
    rw [hd] at h
    dsimp only at h
    by_cases he : d = ""
    · rw [if_pos he] at h
      simp only [Except.ok.injEq, Prod.mk.injEq] at h
      exact Or.inl ⟨by simp [ymOf, hd, he], h.1.symm⟩
    · rw [if_neg he] at h
      cases hiso : isoParse d with
      | none => rw [hiso] at h; exact absurd h (by simp)
      | some t =>
        obtain ⟨y, mo, dd⟩ := t
        rw [hiso] at h
        dsimp only at h
        have hymOf : ymOf r = some (formatYM y mo) := by
          unfold ymOf
          rw [hd]
          dsimp only [Option.bind]
          rw [if_neg he, hiso]
          rfl
        by_cases hl : (hist0.lookup (formatYM y mo)).isSome = true
        · rw [if_pos hl] at h
          dsimp only at h
          simp only [Except.ok.injEq, Prod.mk.injEq] at h
          refine Or.inr ⟨formatYM y mo, hymOf, Or.inl ?_⟩
          obtain ⟨v, hv⟩ := Option.isSome_iff_exists.mp hl
          refine ⟨mem_keys_of_lookup _ _ _ hv, ?_⟩
          rw [← h.1, foldl_updAL_keys]
        · rw [if_neg hl] at h
          dsimp only at h
          simp only [Except.ok.injEq, Prod.mk.injEq] at h
          refine Or.inr ⟨formatYM y mo, hymOf, Or.inr ?_⟩
          constructor
          · intro hmem
            exact hl (mem_keys_lookup_isSome _ _ hmem)
          · rw [← h.1, foldl_updAL_keys, List.map_append]
            rfl

/-- The historical-table fold succeeds on valid dates and produces a dict
whose key sequence is duplicate-free and holds exactly the year-months of
the processed records. -/
theorem foldlM_histStep (embeddings : List (List Q)) :
    ∀ (l : List Record) (hist0 : List (String × HMonth)) (idx0 : Nat),
      (∀ r ∈ l, ∀ d, r.date = some d → d ≠ "" → (isoParse d).isSome) →
      (hist0.map Prod.fst).Nodup →
      ∃ hist idx,
        List.foldlM (fun acc r => histStep acc embeddings r) (hist0, idx0) l = .ok (hist, idx) ∧
          (hist.map Prod.fst).Nodup ∧
          ∀ k, k ∈ hist.map Prod.fst ↔ k ∈ hist0.map Prod.fst ∨ k ∈ l.filterMap ymOf
  | [], hist0, idx0, _, hnd => ⟨hist0, idx0, rfl, hnd, by simp⟩
  | r :: l, hist0, idx0, h, hnd => by
    obtain ⟨⟨hist1, idx1⟩, hstep⟩ :=
      histStep_ok hist0 idx0 embeddings r (h r (List.mem_cons_self _ _))
    have htail := fun x hx => h x (List.mem_cons_of_mem _ hx)
    rcases histStep_keys hstep with ⟨hymO, rfl⟩ | ⟨ym, hymO, ⟨hmem, hkeys⟩ | ⟨hmem, hkeys⟩⟩
    · obtain ⟨hist, idx, hfold, hnd', hiff⟩ := foldlM_histStep embeddings l hist1 idx1 htail hnd
      refine ⟨hist, idx, ?_, hnd', ?_⟩
      · rw [List.foldlM_cons, hstep]
        exact hfold
      · intro k
        rw [hiff k, List.filterMap_cons_none hymO]
    · obtain ⟨hist, idx, hfold, hnd', hiff⟩ := foldlM_histStep embeddings l hist1 idx1 htail
        (hkeys ▸ hnd)
      refine ⟨hist, idx, ?_, hnd', ?_⟩
      · rw [List.foldlM_cons, hstep]
        exact hfold
      · intro k
        rw [hiff k, hkeys, List.filterMap_cons_some hymO, List.mem_cons]
        constructor
        · rintro (hk | hk)
          · exact Or.inl hk
          · exact Or.inr (Or.inr hk)
        · rintro (hk | rfl | hk)
          · exact Or.inl hk
          · exact Or.inl hmem
          · exact Or.inr hk
    · have hnd1 : (hist1.map Prod.fst).Nodup := by
        rw [hkeys]
        exact List.nodup_append.mpr ⟨hnd, List.nodup_singleton ym,
          by simpa [List.disjoint_singleton] using hmem⟩
      obtain ⟨hist, idx, hfold, hnd', hiff⟩ := foldlM_histStep embeddings l hist1 idx1 htail hnd1
      refine ⟨hist, idx, ?_, hnd', ?_⟩
      · rw [List.foldlM_cons, hstep]
        exact hfold
      · intro k
        rw [hiff k, hkeys, List.filterMap_cons_some hymO, List.mem_cons, List.mem_append,
          List.mem_singleton]
        constructor
        · rintro ((hk | rfl) | hk)
          · exact Or.inl hk
          · exact Or.inr (Or.inl rfl)
          · exact Or.inr (Or.inr hk)
        · rintro (hk | rfl | hk)
          · exact Or.inl (Or.inl hk)
          · exact Or.inl (Or.inr rfl)
          · exact Or.inr hk

/-- C7 (amended): for every collection with valid dates and at least one
record contributing a year-month, `generate_historical_table` succeeds and
its table has one row per distinct `YYYY-MM` value among dated records,
strictly ascending by year-month. -/
theorem generate_historical_table_rows (records : List Record) (embeddings : List (List Q))
    (hv : ∀ r ∈ records, ∀ d, r.date = some d → d ≠ "" → (isoParse d).isSome)
    (hne : ∃ r ∈ records, (ymOf r).isSome) :
    ∃ t, generate_historical_table records embeddings = .ok t ∧
      t.table.length = (records.filterMap ymOf).dedup.length ∧
      (t.table.map (fun row => row.month)).Pairwise (· < ·) := by
  obtain ⟨hist, idx, hfold, hnd, hiff⟩ := foldlM_histStep embeddings records [] 0 hv (by simp)
  have hmem : ∀ k, k ∈ hist.map Prod.fst ↔ k ∈ records.filterMap ymOf := by
    intro k
    rw [hiff k]
    simp
  have hhist_ne : hist ≠ [] := by
    obtain ⟨r, hr, hym⟩ := hne
    obtain ⟨ym, hymv⟩ := Option.isSome_iff_exists.mp hym
    have : ym ∈ hist.map Prod.fst :=
      (hmem ym).mpr (List.mem_filterMap.mpr ⟨r, hr, hymv⟩)
    intro hemp
    rw [hemp] at this
    simp at this
  have hSperm : List.Perm (List.insertionSort histKeyLE hist) hist := List.perm_insertionSort _ _
  have hSne : List.insertionSort histKeyLE hist ≠ [] := by
    intro hemp
    exact hhist_ne (List.Perm.eq_nil (hemp ▸ hSperm.symm))
  obtain ⟨s0, S', hS⟩ := List.exists_cons_of_ne_nil hSne
  have hh : (List.insertionSort histKeyLE hist).head? = some s0 := by rw [hS]; rfl
  have hgl : ∃ z, ((List.insertionSort histKeyLE hist).map Prod.fst).getLast? = some z := by
    refine Option.isSome_iff_exists.mp ?_
    rw [Option.isSome_iff_ne_none, Ne, List.getLast?_eq_none_iff]
    simp [hS]
  obtain ⟨z, hz⟩ := hgl
  unfold generate_historical_table
  rw [hfold]
  dsimp only
  rw [hh, hz]
  refine ⟨_, rfl, ?_, ?_⟩
  · rw [List.length_map, List.length_insertionSort]
    have h1 : hist.length = (hist.map Prod.fst).length := (List.length_map _ _).symm
    have h2 : List.Perm (hist.map Prod.fst) ((records.filterMap ymOf).dedup) := by
      refine (List.perm_ext_iff_of_nodup hnd (List.nodup_dedup _)).mpr ?_
      intro a
      rw [List.mem_dedup]
      exact hmem a
    rw [h1, h2.length_eq]
  · have hsorted : (List.insertionSort histKeyLE hist).Pairwise histKeyLE :=
      List.sorted_insertionSort histKeyLE hist
    have hkeysnd : ((List.insertionSort histKeyLE hist).map Prod.fst).Nodup :=
      ((hSperm.map Prod.fst).nodup_iff).mpr hnd
    have hple : ((List.insertionSort histKeyLE hist).map Prod.fst).Pairwise (· ≤ ·) := by
      rw [List.pairwise_map]
      exact hsorted.imp (fun hab => (pyStrLe_iff _ _).mp hab)
    have hplt : ((List.insertionSort histKeyLE hist).map Prod.fst).Pairwise (· < ·) :=
      (hple.and hkeysnd).imp (fun hab => lt_of_le_of_ne hab.1 hab.2)
    rw [List.map_map, List.pairwise_map]
    exact (List.pairwise_map.mp hplt).imp (fun hab => hab)

/-- C7 (counterexample to the claim as stated): on a collection in which
no record has a date, `generate_historical_table` raises `ValueError`
(from `min()` over the empty key set) instead of returning a zero-row
table. -/
theorem generate_historical_table_raises_no_dates :
    generate_historical_table [⟨"u", "some note", [], 0, 0, "", "", none⟩] []
      = .error "ValueError: min() arg is an empty sequence" := by decide

/-- Witness for C7 (amended) at a single dated record. -/
theorem generate_historical_table_rows_witness :
    (∃ r ∈ [(⟨"a", "", [], 0, 0, "", "", some "2024-05-02"⟩ : Record)], (ymOf r).isSome) ∧
      ∃ t, generate_historical_table
          [(⟨"a", "", [], 0, 0, "", "", some "2024-05-02"⟩ : Record)] [] = .ok t ∧
        t.table.length
          = ([(⟨"a", "", [], 0, 0, "", "", some "2024-05-02"⟩ : Record)].filterMap ymOf).dedup.length ∧
        (t.table.map (fun row => row.month)).Pairwise (· < ·) :=
  ⟨⟨_, List.mem_cons_self _ _, by decide⟩,
    generate_historical_table_rows [⟨"a", "", [], 0, 0, "", "", some "2024-05-02"⟩] []
      (by
        intro r hr d hd hne
        simp only [List.mem_cons, List.not_mem_nil, or_false] at hr
        subst hr
        simp only [Option.some.injEq] at hd
        subst hd
        decide)
      ⟨_, List.mem_cons_self _ _, by decide⟩⟩

/-- Witness for C3 at two concrete March dates in different years. -/
theorem forecast_march_nitrogen_mean_witness :
    (isoParse "2022-03-05" = some (2022, 3, 5)) ∧
      (isoParse "2023-03-12" = some (2023, 3, 12)) ∧
      (2022 ≠ 2023) ∧
      (∃ pr, forecast_next_year
          [⟨"a", "", [⟨"Nitrogen Blend", 0, ⟨10, 1⟩, "OZ", ""⟩], ⟨10, 1⟩, 0, "", "",
             some "2022-03-05"⟩,
           ⟨"b", "", [⟨"Nitrogen Blend", 0, ⟨14, 1⟩, "OZ", ""⟩], ⟨14, 1⟩, 0, "", "",
             some "2023-03-12"⟩] []
        = .ok pr ∧
        pr.2.lookup "Month_3" = some ⟨[("Nitrogen Blend", ⟨⟨12, 1⟩, "OZ", ""⟩)], ""⟩) :=
  ⟨by decide, by decide, by decide,
    forecast_march_nitrogen_mean "2022-03-05" "2023-03-12" 2022 2023 5 12
      (by decide) (by decide) (by decide)⟩

end LawnAI
